import Mathlib

/-!
Verification of the Sandboxed Code Execution & Validation Engine of
`pymaster.py` (classes `SafeCodeExecutor` and `ChallengeValidator`).

The embedding models:
  * the Safety Pre-Screener `SafeCodeExecutor._is_safe_code` (lines 390-416),
  * the executor `SafeCodeExecutor.execute` (lines 336-388) as a state
    transformer over an explicit `ExecState` (semaphore counter, set of
    temporary files, number of spawned processes), with the behaviour of the
    sandboxed child process abstracted by a `RunOutcome` oracle,
  * the validator `ChallengeValidator.validate_solution` (lines 497-522),
  * the Literal Value Codec: `repr` on the harness side (line 450) and
    `ast.literal_eval` on the validator side (line 511), restricted to the
    grammar of integers, strings, booleans, `None` and lists.

Python sources are modelled by the record `PySource`: the raw text together
with the outcome of `ast.parse` restricted to the import statements the
screener walks (`none` models a `SyntaxError`).
-/

/-! ## Character and string utilities (models of Python `str` methods) -/

/-- The apostrophe character, U+0027. -/
def quoteChar : Char := Char.ofNat 39

/-- Is `c` an ASCII decimal digit? -/
def isDig (c : Char) : Bool := 48 ≤ c.toNat && c.toNat ≤ 57

/-- Whitespace as recognised by Python `str.strip` (model restricted to the
ASCII whitespace characters). -/
def isPyWs (c : Char) : Bool :=
  c == ' ' || c == '\t' || c == '\n' || c == '\r' || c == '\x0b' || c == '\x0c'

/-- Model of Python `str.strip()` (ASCII whitespace). -/
def pyStrip (s : String) : String :=
  String.mk (((s.data.dropWhile isPyWs).reverse.dropWhile isPyWs).reverse)

/-- Worker for `pySplitlines`: splits at `\n`, `\r\n` and `\r`. -/
def splitLinesGo : List Char → List Char → List String
  | [], acc => if acc.isEmpty then [] else [String.mk acc.reverse]
  | '\r' :: '\n' :: rest, acc => String.mk acc.reverse :: splitLinesGo rest []
  | '\n' :: rest, acc => String.mk acc.reverse :: splitLinesGo rest []
  | '\r' :: rest, acc => String.mk acc.reverse :: splitLinesGo rest []
  | c :: rest, acc => splitLinesGo rest (c :: acc)

/-- Model of Python `str.splitlines()` (restricted to the common line
terminators `\n`, `\r\n`, `\r`; no trailing empty line). -/
def pySplitlines (s : String) : List String := splitLinesGo s.data []

/-- Model of Python `str.lower()` (correct on the ASCII range, which is all
the deny-list tokens use). -/
def pyLower (s : String) : String := String.mk (s.data.map Char.toLower)

/-- Does `hay` start with `needle`? -/
def startsWithL : List Char → List Char → Bool
  | [], _ => true
  | _ :: _, [] => false
  | a :: as, b :: bs => a == b && startsWithL as bs

/-- Model of the Python substring test `needle in hay`. -/
def hasSub (needle : List Char) : List Char → Bool
  | [] => startsWithL needle []
  | b :: rest => startsWithL needle (b :: rest) || hasSub needle rest

/-! ## Python values

`Py` is the universe of values the engine passes around: JSON payloads decoded
from the child process output, decoded literal results, and expected outputs.
-/

/-- A Python value as used by the engine (JSON payloads and literal values).
A `float` arises only from decoding a JSON number with a fraction or
exponent part (or the `NaN`/`Infinity`/`-Infinity` constants `json.loads`
accepts); it carries the source lexeme.  The lexeme determines everything
the engine observes about a float — its type name in exception messages and
its truthiness — while floating-point arithmetic, formatting and numeric
cross-type equality stay outside the model (no code path a claim touches
reaches them). -/
inductive Py where
  | none
  | bool (b : Bool)
  | int (n : ℤ)
  | float (lexeme : String)
  | str (s : String)
  | list (xs : List Py)
  | dict (kvs : List (String × Py))

/-- Python truthiness (`if payload.get("success"):`).  A float is falsy
exactly when it is zero: for a JSON number lexeme that means every mantissa
digit (before any exponent marker) is `0`; the non-numeric constants are
truthy. -/
def pyTruthy : Py → Bool
  | .none => false
  | .bool b => b
  | .int n => n != 0
  | .float s =>
    if s == "NaN" || s == "Infinity" || s == "-Infinity" then true
    else !((s.data.takeWhile (fun c => c != 'e' && c != 'E')).all
        (fun c => !(isDig c) || c == '0'))
  | .str s => s != ""
  | .list xs => !xs.isEmpty
  | .dict kvs => !kvs.isEmpty

/-- The Python type name of a value, as it appears in exception messages. -/
def pyTypeName : Py → String
  | .none => "NoneType"
  | .bool _ => "bool"
  | .int _ => "int"
  | .float _ => "float"
  | .str _ => "str"
  | .list _ => "list"
  | .dict _ => "dict"

/-! ### Python `repr`

`natRepr`, `intReprL`, `strReprL` and `pyReprL` model the `repr` builtin on
the value shapes above.  String `repr` follows CPython: the quote is the
apostrophe unless the string contains an apostrophe and no double quote, in
which case it is the double quote; backslash, the quote, `\n`, `\r`,
`\t` are escaped by name and other control characters as `\xHH`.  (Python
additionally escapes unprintable non-ASCII characters; the round-trip theorem
below is therefore stated for ASCII strings, where the model is exact.)
-/

/-- Little-endian decimal digit emitter; `fuel` bounds the recursion and any
`fuel ≥ n` is enough. -/
def natReprAux : ℕ → ℕ → List Char
  | 0, _ => []
  | _, 0 => []
  | fuel + 1, n + 1 => Nat.digitChar ((n + 1) % 10) :: natReprAux fuel ((n + 1) / 10)

/-- Decimal representation of a natural number, most significant digit
first. -/
def natRepr (n : ℕ) : List Char :=
  if n = 0 then ['0'] else (natReprAux n n).reverse

/-- `repr` of a Python integer. -/
def intReprL : ℤ → List Char
  | Int.ofNat m => natRepr m
  | Int.negSucc m => '-' :: natRepr (m + 1)

/-- Escape one character of a string `repr` body, `q` being the chosen
quote. -/
def escChar (q : Char) (c : Char) : List Char :=
  if c == '\\' then ['\\', '\\']
  else if c == q then ['\\', q]
  else if c == '\n' then ['\\', 'n']
  else if c == '\r' then ['\\', 'r']
  else if c == '\t' then ['\\', 't']
  else if c.toNat < 32 || c.toNat == 127 then
    ['\\', 'x', Nat.digitChar (c.toNat / 16), Nat.digitChar (c.toNat % 16)]
  else [c]

/-- The escaped body of a string `repr`. -/
def strBody (q : Char) : List Char → List Char
  | [] => []
  | c :: rest => escChar q c ++ strBody q rest

/-- `repr` of a Python string: quote choice plus escaped body. -/
def strReprL (s : String) : List Char :=
  let cs := s.data
  let q := if cs.contains quoteChar && !(cs.contains '"') then '"' else quoteChar
  q :: (strBody q cs ++ [q])

mutual

/-- `repr` of a Python value (on the `Py` universe). -/
def pyReprL : Py → List Char
  | .none => "None".data
  | .bool b => if b then "True".data else "False".data
  | .int n => intReprL n
  | .float s => s.data
  | .str s => strReprL s
  | .list xs => '[' :: (pyReprListL xs ++ [']'])
  | .dict kvs => '\x7b' :: (pyReprDictL kvs ++ ['\x7d'])

/-- `repr` of the comma-separated inside of a Python list. -/
def pyReprListL : List Py → List Char
  | [] => []
  | [x] => pyReprL x
  | x :: y :: rest => pyReprL x ++ ',' :: ' ' :: pyReprListL (y :: rest)

/-- `repr` of the comma-separated inside of a Python dict. -/
def pyReprDictL : List (String × Py) → List Char
  | [] => []
  | [(k, v)] => strReprL k ++ ':' :: ' ' :: pyReprL v
  | (k, v) :: p :: rest =>
      strReprL k ++ ':' :: ' ' :: pyReprL v ++ ',' :: ' ' :: pyReprDictL (p :: rest)

end

/-- `repr` of a Python value, as a string.  This is the encoding direction of
the Literal Value Codec (`repr(result)` in the generated harness). -/
def pyRepr (v : Py) : String := String.mk (pyReprL v)

/-- Model of Python `str()` as used in f-string interpolation: identity on
strings, `repr` on everything else (exact on the shapes the engine passes). -/
def pyStrFn : Py → String
  | .str s => s
  | v => pyRepr v

mutual

/-- Model of Python `==` on engine values: `bool` and `int` compare by
numeric value, everything else structurally.  (Python dict equality is
key-set based; the model compares dict entries in order, which agrees with it
on the equal-order case — no claim compares dict values.) -/
def pyEq : Py → Py → Bool
  | .none, .none => true
  | .bool a, .bool b => a == b
  | .bool a, .int n => (if a then (1 : ℤ) else 0) == n
  | .int n, .bool b => n == (if b then (1 : ℤ) else 0)
  | .int a, .int b => a == b
  | .float a, .float b => a == b
  | .str a, .str b => a == b
  | .list a, .list b => pyEqList a b
  | .dict a, .dict b => pyEqDict a b
  | _, _ => false

/-- Pointwise `pyEq` on lists. -/
def pyEqList : List Py → List Py → Bool
  | [], [] => true
  | a :: as, b :: bs => pyEq a b && pyEqList as bs
  | _, _ => false

/-- Pointwise `pyEq` on dict entry lists. -/
def pyEqDict : List (String × Py) → List (String × Py) → Bool
  | [], [] => true
  | (ka, va) :: as, (kb, vb) :: bs => ka == kb && pyEq va vb && pyEqDict as bs
  | _, _ => false

end

/-! ## Safety Pre-Screener (`SafeCodeExecutor._is_safe_code`, lines 390-416) -/

/-- One import-like AST node as the screener sees it: for `ast.Import` the
alias names with no module; for `ast.ImportFrom` the imported names plus the
source module (`none` models a relative `from . import x`). -/
structure ImportStmt where
  names : List String
  module : Option String
deriving DecidableEq

/-- A candidate source: the raw text plus the result of `ast.parse` projected
onto the import statements `ast.walk` visits; `imports = none` models
`ast.parse` raising `SyntaxError`. -/
structure PySource where
  text : String
  imports : Option (List ImportStmt)
deriving DecidableEq

/-- The `blocked_imports` deny-list (line 391). -/
def blocked_imports : List String :=
  ["os", "sys", "subprocess", "socket", "shutil", "ctypes",
   "multiprocessing", "asyncio.subprocess", "urllib", "requests",
   "glob", "pathlib", "__future__"]

/-- The `blocked_calls` textual deny-list (line 396). -/
def blocked_calls : List String := ["eval", "exec", "__import__", "open("]

/-- Python `name.split` on a dot, first component: the part before the
first dot. -/
def firstComp (s : String) : String := String.mk (s.data.takeWhile (fun c => c != '.'))

/-- The names one import node contributes to the check:
`[a.name.split('.')[0] for a in node.names]` plus
`[mod.split('.')[0]] if mod else []` (line 405-407). -/
def importCheckNames (im : ImportStmt) : List String :=
  im.names.map firstComp ++
    (match im.module with
     | some m => if m = "" then [] else [firstComp m]
     | Option.none => [])

/-- Does one import node trip the deny-list
(`any(x in blocked_imports for x in check if x)`, line 408)? -/
def importBlocked (im : ImportStmt) : Bool :=
  (importCheckNames im).any (fun x => x != "" && blocked_imports.contains x)

/-- Does the lowercased raw source contain one of the denied textual tokens
(`any(tok in lower for tok in blocked_calls)`, lines 412-413)? -/
def hasBlockedToken (text : String) : Bool :=
  blocked_calls.any (fun tok => hasSub tok.data (pyLower text).data)

/-- Model of `SafeCodeExecutor._is_safe_code` (lines 390-416): on
`SyntaxError` return `True`; otherwise reject on a blocked import, then on a
blocked textual token. -/
def is_safe_code (src : PySource) : Bool :=
  match src.imports with
  | Option.none => true
  | some imps =>
    if imps.any importBlocked then false
    else if hasBlockedToken src.text then false
    else true

/-! ## JSON decoding (`json.loads` on the last stdout line, lines 369-376)

`jsonP` is a fuel-indexed recursive-descent parser for JSON values into `Py`.
Modes: 0 = value, 1 = array opening, 2 = array continuation, 3 = object
opening, 4 = object continuation.  The accepted language follows `json.loads`
with its default settings: numbers use the JSON grammar (an integer part
that is `0` or starts with a nonzero digit, an optional fraction, an
optional exponent — a fraction or exponent makes the value a float, and a
leading-zero integer such as `007` is rejected just as `json.loads` rejects
it, by ending the number after the `0`), the Python extensions `NaN`,
`Infinity` and `-Infinity` decode as floats, strings reject unescaped
control characters as the default strict mode does, and duplicate object
keys follow Python: the last occurrence wins (see `dictGet`).
-/

/-- JSON insignificant whitespace. -/
def isWsChar (c : Char) : Bool := c == ' ' || c == '\t' || c == '\n' || c == '\r'

/-- Drop leading insignificant whitespace. -/
def skipWs (l : List Char) : List Char := l.dropWhile isWsChar

/-- Value of a hexadecimal digit character. -/
def hexVal (c : Char) : Option ℕ :=
  if 48 ≤ c.toNat && c.toNat ≤ 57 then some (c.toNat - 48)
  else if 97 ≤ c.toNat && c.toNat ≤ 102 then some (c.toNat - 87)
  else if 65 ≤ c.toNat && c.toNat ≤ 70 then some (c.toNat - 55)
  else none

/-- Decimal value of a digit run (most significant first). -/
def digitsVal (l : List Char) : ℕ := l.foldl (fun a c => 10 * a + (c.toNat - 48)) 0

/-- JSON string body after the opening quote; returns the decoded characters
and the input remaining after the closing quote. -/
def jsonStrGo : List Char → Option (List Char × List Char)
  | [] => none
  | '"' :: rest => some ([], rest)
  | '\\' :: '"' :: rest => (jsonStrGo rest).map (fun p => ('"' :: p.1, p.2))
  | '\\' :: '\\' :: rest => (jsonStrGo rest).map (fun p => ('\\' :: p.1, p.2))
  | '\\' :: '/' :: rest => (jsonStrGo rest).map (fun p => ('/' :: p.1, p.2))
  | '\\' :: 'b' :: rest => (jsonStrGo rest).map (fun p => ('\x08' :: p.1, p.2))
  | '\\' :: 'f' :: rest => (jsonStrGo rest).map (fun p => ('\x0c' :: p.1, p.2))
  | '\\' :: 'n' :: rest => (jsonStrGo rest).map (fun p => ('\n' :: p.1, p.2))
  | '\\' :: 'r' :: rest => (jsonStrGo rest).map (fun p => ('\r' :: p.1, p.2))
  | '\\' :: 't' :: rest => (jsonStrGo rest).map (fun p => ('\t' :: p.1, p.2))
  | '\\' :: 'u' :: h1 :: h2 :: h3 :: h4 :: rest =>
    (match hexVal h1, hexVal h2, hexVal h3, hexVal h4 with
     | some a, some b, some c, some d =>
       (jsonStrGo rest).map
         (fun p => (Char.ofNat (4096 * a + 256 * b + 16 * c + d) :: p.1, p.2))
     | _, _, _, _ => none)
  | '\\' :: _ :: _ => none
  | '\\' :: [] => none
  | c :: rest =>
    if c.toNat < 32 then none
    else (jsonStrGo rest).map (fun p => (c :: p.1, p.2))

/-- The integer part of a JSON number: a single `0`, or a nonzero digit
followed by digits.  Returns the consumed digits and the remaining input. -/
def jsonIntPart : List Char → Option (List Char × List Char)
  | [] => none
  | c :: rest =>
    if c == '0' then some (['0'], rest)
    else if isDig c then some (c :: rest.takeWhile isDig, rest.dropWhile isDig)
    else none

/-- The optional fraction part of a JSON number: `.` followed by at least
one digit, or nothing (a bare `.` is left unconsumed, as the number regular
expression of the `json` module leaves it). -/
def jsonFracPart (l : List Char) : List Char × List Char :=
  match l with
  | '.' :: r =>
    (let ds := r.takeWhile isDig
     if ds.isEmpty then ([], l) else ('.' :: ds, r.dropWhile isDig))
  | _ => ([], l)

/-- The optional exponent part of a JSON number: `e` or `E`, an optional
sign, and at least one digit, or nothing (left unconsumed when
incomplete). -/
def jsonExpPart (l : List Char) : List Char × List Char :=
  match l with
  | e :: s :: r =>
    if e == 'e' || e == 'E' then
      if s == '+' || s == '-' then
        (let ds := r.takeWhile isDig
         if ds.isEmpty then ([], e :: s :: r) else (e :: s :: ds, r.dropWhile isDig))
      else
        (let ds := (s :: r).takeWhile isDig
         if ds.isEmpty then ([], e :: s :: r)
         else (e :: ds, (s :: r).dropWhile isDig))
    else ([], e :: s :: r)
  | l2 => ([], l2)

/-- One JSON number starting at the integer part (`neg` records a consumed
minus sign): an `int` when there is neither fraction nor exponent, a `float`
carrying the full lexeme otherwise — as `json.loads` produces. -/
def jsonNumber (neg : Bool) (l : List Char) : Option (Py × List Char) :=
  match jsonIntPart l with
  | Option.none => none
  | some (ip, r1) =>
    let (fp, r2) := jsonFracPart r1
    let (ep, r3) := jsonExpPart r2
    if fp.isEmpty && ep.isEmpty then
      some (.int (if neg then -(digitsVal ip : ℤ) else (digitsVal ip : ℤ)), r3)
    else
      some (.float (String.mk ((if neg then ['-'] else []) ++ ip ++ fp ++ ep)), r3)

/-- The fuel-indexed JSON parser (see the section comment for the modes). -/
def jsonP : ℕ → ℕ → List Py → List (String × Py) → List Char → Option (Py × List Char)
  | 0, _, _, _, _ => none
  | fuel + 1, 0, _, _, l =>
    (match skipWs l with
     | 'n' :: 'u' :: 'l' :: 'l' :: rest => some (.none, rest)
     | 't' :: 'r' :: 'u' :: 'e' :: rest => some (.bool true, rest)
     | 'f' :: 'a' :: 'l' :: 's' :: 'e' :: rest => some (.bool false, rest)
     | '"' :: rest => (jsonStrGo rest).map (fun p => (.str (String.mk p.1), p.2))
     | '[' :: rest => jsonP fuel 1 [] [] rest
     | '\x7b' :: rest => jsonP fuel 3 [] [] rest
     | 'N' :: 'a' :: 'N' :: rest => some (.float "NaN", rest)
     | 'I' :: 'n' :: 'f' :: 'i' :: 'n' :: 'i' :: 't' :: 'y' :: rest =>
       some (.float "Infinity", rest)
     | '-' :: 'I' :: 'n' :: 'f' :: 'i' :: 'n' :: 'i' :: 't' :: 'y' :: rest =>
       some (.float "-Infinity", rest)
     | '-' :: rest => jsonNumber true rest
     | c :: rest =>
       if isDig c then jsonNumber false (c :: rest) else none
     | [] => none)
  | fuel + 1, 1, _, _, l =>
    (match skipWs l with
     | ']' :: rest => some (.list [], rest)
     | l2 =>
       match jsonP fuel 0 [] [] l2 with
       | some (v, rest) => jsonP fuel 2 [v] [] rest
       | none => none)
  | fuel + 1, 2, accL, _, l =>
    (match skipWs l with
     | ']' :: rest => some (.list accL.reverse, rest)
     | ',' :: rest =>
       (match jsonP fuel 0 [] [] rest with
        | some (v, rest2) => jsonP fuel 2 (v :: accL) [] rest2
        | none => none)
     | _ => none)
  | fuel + 1, 3, _, _, l =>
    (match skipWs l with
     | '\x7d' :: rest => some (.dict [], rest)
     | '"' :: rest =>
       (match jsonStrGo rest with
        | some (k, rest2) =>
          (match skipWs rest2 with
           | ':' :: rest3 =>
             (match jsonP fuel 0 [] [] rest3 with
              | some (v, rest4) => jsonP fuel 4 [] [(String.mk k, v)] rest4
              | none => none)
           | _ => none)
        | none => none)
     | _ => none)
  | fuel + 1, 4, _, accD, l =>
    (match skipWs l with
     | '\x7d' :: rest => some (.dict accD.reverse, rest)
     | ',' :: rest =>
       (match skipWs rest with
        | '"' :: rest1 =>
          (match jsonStrGo rest1 with
           | some (k, rest2) =>
             (match skipWs rest2 with
              | ':' :: rest3 =>
                (match jsonP fuel 0 [] [] rest3 with
                 | some (v, rest4) => jsonP fuel 4 [] ((String.mk k, v) :: accD) rest4
                 | none => none)
              | _ => none)
           | none => none)
        | _ => none)
     | _ => none)
  | _ + 1, _, _, _, _ => none

/-- Model of `json.loads` on a single line: parse one JSON value and require
only whitespace after it. -/
def jsonLoads (s : String) : Option Py :=
  match jsonP (2 * s.data.length + 4) 0 [] [] s.data with
  | some (v, rest) => if (skipWs rest).isEmpty then some v else none
  | none => none

/-- Python `dict.get` on a decoded JSON object: the last occurrence of a key
wins, as in `json.loads`. -/
def dictGet (kvs : List (String × Py)) (k : String) : Option Py :=
  (kvs.reverse.find? (fun p => p.1 == k)).map (fun p => p.2)

/-! ## Literal Value Codec, decoding direction
(`ast.literal_eval(result)`, line 511)

`litP` is a fuel-indexed parser for the Python literal grammar restricted to
integers, quoted strings (both quote styles, with the escapes `repr`
produces), `True`/`False`/`None` and lists (`litP` modes: 0 = value,
1 = list opening, 2 = list continuation; the Python tuple/dict/set literals are
outside the modelled grammar).  Conditions on characters are spelled with
`if`-chains (rather than literal patterns) so the parser can be reasoned
about on symbolic digit characters.
-/

mutual

/-- Literal string body after the opening quote `q`: characters up to the
closing quote, with backslash escapes delegated to `litEsc`. -/
def litStrGo (q : Char) : List Char → Option (List Char × List Char)
  | [] => none
  | c :: rest =>
    if c == q then some ([], rest)
    else if c == '\\' then litEsc q rest
    else (litStrGo q rest).map (fun p => (c :: p.1, p.2))

/-- One backslash escape of a literal string body (the escapes `repr`
produces plus `\"` and `\uHHHH`), then the remaining body. -/
def litEsc (q : Char) : List Char → Option (List Char × List Char)
  | [] => none
  | e :: r =>
    if e == 'n' then (litStrGo q r).map (fun p => ('\n' :: p.1, p.2))
    else if e == 'r' then (litStrGo q r).map (fun p => ('\r' :: p.1, p.2))
    else if e == 't' then (litStrGo q r).map (fun p => ('\t' :: p.1, p.2))
    else if e == '\\' then (litStrGo q r).map (fun p => ('\\' :: p.1, p.2))
    else if e == '"' then (litStrGo q r).map (fun p => ('"' :: p.1, p.2))
    else if e == quoteChar then (litStrGo q r).map (fun p => (quoteChar :: p.1, p.2))
    else if e == 'x' then
      match r with
      | h1 :: h2 :: r2 =>
        if (hexVal h1).isSome && (hexVal h2).isSome then
          (litStrGo q r2).map
            (fun p => (Char.ofNat (16 * (hexVal h1).getD 0 + (hexVal h2).getD 0) :: p.1, p.2))
        else none
      | _ => none
    else if e == 'u' then
      match r with
      | h1 :: h2 :: h3 :: h4 :: r2 =>
        if (hexVal h1).isSome && (hexVal h2).isSome &&
            (hexVal h3).isSome && (hexVal h4).isSome then
          (litStrGo q r2).map
            (fun p => (Char.ofNat (4096 * (hexVal h1).getD 0 + 256 * (hexVal h2).getD 0 +
              16 * (hexVal h3).getD 0 + (hexVal h4).getD 0) :: p.1, p.2))
        else none
      | _ => none
    else none

end

/-- The fuel-indexed literal parser (see the section comment for the modes). -/
def litP : ℕ → ℕ → List Py → List Char → Option (Py × List Char)
  | 0, _, _, _ => none
  | fuel + 1, 0, _, l =>
    (match skipWs l with
     | [] => none
     | c :: rest =>
       if c == '[' then litP fuel 1 [] rest
       else if c == '-' then
         (let ds := rest.takeWhile isDig
          if ds.isEmpty then none
          else some (.int (-(digitsVal ds : ℤ)), rest.dropWhile isDig))
       else if isDig c then
         some (.int (digitsVal ((c :: rest).takeWhile isDig)),
               (c :: rest).dropWhile isDig)
       else if c == '"' || c == quoteChar then
         (litStrGo c rest).map (fun p => (.str (String.mk p.1), p.2))
       else
         match c :: rest with
         | 'T' :: 'r' :: 'u' :: 'e' :: rest2 => some (.bool true, rest2)
         | 'F' :: 'a' :: 'l' :: 's' :: 'e' :: rest2 => some (.bool false, rest2)
         | 'N' :: 'o' :: 'n' :: 'e' :: rest2 => some (.none, rest2)
         | _ => none)
  | fuel + 1, 1, _, l =>
    (match skipWs l with
     | [] => none
     | c :: rest =>
       if c == ']' then some (.list [], rest)
       else
         match litP fuel 0 [] (c :: rest) with
         | some (v, rest2) => litP fuel 2 [v] rest2
         | none => none)
  | fuel + 1, 2, acc, l =>
    (match skipWs l with
     | [] => none
     | c :: rest =>
       if c == ']' then some (.list acc.reverse, rest)
       else if c == ',' then
         match skipWs rest with
         | [] => none
         | c2 :: rest2 =>
           if c2 == ']' then some (.list acc.reverse, rest2)
           else
             match litP fuel 0 [] (c2 :: rest2) with
             | some (v, rest3) => litP fuel 2 (v :: acc) rest3
             | none => none
       else none)
  | _ + 1, _, _, _ => none

/-- Model of `ast.literal_eval` on the modelled grammar: parse one literal
and require only whitespace around it. -/
def literalEval (s : String) : Option Py :=
  match litP (2 * s.data.length + 4) 0 [] s.data with
  | some (v, rest) => if (skipWs rest).isEmpty then some v else none
  | none => none

/-! ## Isolated Process Runner state and `SafeCodeExecutor.execute`
(lines 336-388)

`ExecState` is the process-level state `execute` touches: the counting
semaphore `execution_semaphore`, the set of existing temporary files
(identified by numbers; `freshName` models `tempfile.NamedTemporaryFile`
handing out a name distinct from every live one), and a spawn counter.  The
behaviour of `subprocess.run` on the generated wrapper is abstracted by a
`RunOutcome`: normal completion with captured streams, `TimeoutExpired`, or
any other exception raised inside the `try` block (spawn failure and
runner-internal errors).  Temporary-file creation itself is assumed to
succeed: per the error-handling design, inability to create the file is host
exhaustion and is outside the guarantee.
-/

/-- Process-level state touched by `execute`. -/
structure ExecState where
  semAvailable : ℕ
  tempFiles : List ℕ
  spawned : ℕ
deriving DecidableEq

/-- How the sandboxed child run turns out; abstracts `subprocess.run`. -/
inductive RunOutcome where
  | completed (stdout stderr : String)
  | timedOut
  | spawnError (msg : String)

/-- The triple `execute` returns: `(ok, result, error_message)`.  `result`
models the second tuple component (`payload.get("result")` on success,
`None` otherwise); `err` carries `str()` of the third component. -/
structure ExecResult where
  ok : Bool
  result : Py
  err : String

/-- A temporary-file name distinct from every live one. -/
def freshName (s : ExecState) : ℕ := s.tempFiles.foldr max 0 + 1

/-- The rejection message of `execute` (line 342). -/
def rejectionMsg : String := "Code contains unsafe operations (blocked import or call)."

/-- The timeout message (line 381). -/
def mkTimeoutMsg (timeout : ℕ) : String :=
  "Execution timeout (" ++ Nat.repr timeout ++ "s exceeded)"

/-- The generic exception message (line 383). -/
def mkExecErrorMsg (e : String) : String := "Execution error: " ++ e

/-- Processing of the captured streams after a completed run
(lines 363-378): strip both streams, take the last line of stdout, decode it
as JSON, inspect the `success`/`result`/`error` fields.  A decoded non-dict
payload makes `payload.get` raise `AttributeError`, which the outer
`except Exception` turns into an `Execution error:` message. -/
def parseRun (stdoutRaw stderrRaw : String) : ExecResult :=
  let stdout := pyStrip stdoutRaw
  let stderr := pyStrip stderrRaw
  if stdout != "" then
    let lastLine := pyStrip ((pySplitlines stdout).getLastD "")
    match jsonLoads lastLine with
    | some (Py.dict kvs) =>
      if pyTruthy ((dictGet kvs "success").getD Py.none) then
        ⟨true, (dictGet kvs "result").getD Py.none, ""⟩
      else
        ⟨false, Py.none,
         match dictGet kvs "error" with
         | some v => pyStrFn v
         | Option.none => "Unknown error"⟩
    | some other =>
      let t := pyTypeName other
      ⟨false, Py.none,
       mkExecErrorMsg ("\x27" ++ t ++ "\x27 object has no attribute \x27get\x27")⟩
    | Option.none =>
      ⟨false, Py.none, if stderr != "" then stderr else "Invalid output format"⟩
  else
    ⟨false, Py.none, if stderr != "" then stderr else "No output"⟩

/-- Model of `SafeCodeExecutor.execute` (lines 336-388).  The screening
rejection happens before any state is touched.  Otherwise: one semaphore unit
is acquired (`with execution_semaphore`), a fresh temporary file is created,
the child runs (per `outcome`; completion and timeout mean a process was
spawned), and on every exit of the `try` the `finally` deletes the temporary
file and the `with` releases the unit.  `test_function`, `args` and `kwargs`
shape only the generated wrapper text, whose behaviour `outcome` supplies. -/
def execute (timeout : ℕ) (code : PySource) (test_function : Option String)
    (args : List Py) (kwargs : List (String × Py)) (outcome : RunOutcome)
    (s : ExecState) : ExecResult × ExecState :=
  if is_safe_code code = false then
    (⟨false, Py.none, rejectionMsg⟩, s)
  else
    let tmp := freshName s
    let s1 : ExecState := ⟨s.semAvailable - 1, tmp :: s.tempFiles, s.spawned⟩
    let step : ExecResult × ExecState :=
      match outcome with
      | .completed out er => (parseRun out er, ⟨s1.semAvailable, s1.tempFiles, s1.spawned + 1⟩)
      | .timedOut =>
        (⟨false, Py.none, mkTimeoutMsg timeout⟩,
         ⟨s1.semAvailable, s1.tempFiles, s1.spawned + 1⟩)
      | .spawnError m => (⟨false, Py.none, mkExecErrorMsg m⟩, s1)
    (step.1, ⟨step.2.semAvailable + 1, step.2.tempFiles.erase tmp, step.2.spawned⟩)

/-! ## `ChallengeValidator.validate_solution` (lines 497-522) -/

/-- One test case as the validator reads it from the challenge dictionary:
the `function` entry, the `args` entry (default empty list), and the
`kwargs` entry (default empty dict). -/
structure TestCase where
  function : Option String
  args : List Py
  kwargs : List (String × Py)

/-- The failure feedback line `f"❌ Test {i}: {err}"` (line 508). -/
def failLine (i : ℕ) (err : String) : String := "❌ Test " ++ Nat.repr i ++ ": " ++ err

/-- The pass feedback line `f"✅ Test {i}: Passed"` (line 516). -/
def passLine (i : ℕ) : String := "✅ Test " ++ Nat.repr i ++ ": Passed"

/-- The mismatch feedback line `f"❌ Test {i}: Expected {exp}, got {val}"`
(line 518). -/
def mismatchLine (i : ℕ) (expStr actStr : String) : String :=
  "❌ Test " ++ Nat.repr i ++ ": Expected " ++ expStr ++ ", got " ++ actStr

/-- The per-case body of the validator loop (lines 507-518), given the
result of `execute`: on failure a line embedding the error; on success decode
the result text with `ast.literal_eval` (falling back to the raw value when
that raises) and compare with the expected output. -/
def caseOutcome (i : ℕ) (exp : Py) (r : ExecResult) : String × Bool :=
  if r.ok = false then
    (failLine i r.err, false)
  else
    let val :=
      match r.result with
      | .str str =>
        (match literalEval str with
         | some v => v
         | Option.none => Py.str str)
      | other => other
    if pyEq val exp then (passLine i, true)
    else (mismatchLine i (pyStrFn exp) (pyStrFn val), false)

/-- The validator loop over `zip(test_cases, expected_outputs)` with 1-based
index `i` (line 502): run each case through `execute`, collect the feedback
line and whether the case passed, and thread the process-level state. -/
def runCases (timeout : ℕ) (code : PySource) (oracle : ℕ → RunOutcome) :
    List (TestCase × Py) → ℕ → ExecState → ℕ × List String × ExecState
  | [], _, s => (0, [], s)
  | (tc, exp) :: rest, i, s =>
    let r := execute timeout code tc.function tc.args tc.kwargs (oracle i) s
    let lp := caseOutcome i exp r.1
    let acc := runCases timeout code oracle rest (i + 1) r.2
    (acc.1 + (if lp.2 then 1 else 0), lp.1 :: acc.2.1, acc.2.2)

/-- The summary line prepended after the loop (lines 520-521). -/
def mkSummary (passed n : ℕ) : String :=
  if passed = n then "🎉 All " ++ Nat.repr n ++ " test cases passed!"
  else "⚠️  " ++ Nat.repr passed ++ "/" ++ Nat.repr n ++ " test cases passed"

/-- Model of `ChallengeValidator.validate_solution` (lines 497-522): empty
test-case lists return immediately; otherwise the loop runs and the summary
is prepended.  Returns `((all_passed, feedback), final_state)`. -/
def validate_solution (timeout : ℕ) (user_code : PySource)
    (test_cases : List TestCase) (expected_outputs : List Py)
    (oracle : ℕ → RunOutcome) (s : ExecState) :
    (Bool × List String) × ExecState :=
  if test_cases.isEmpty then ((true, ["No test cases defined"]), s)
  else
    let acc := runCases timeout user_code oracle (test_cases.zip expected_outputs) 1 s
    let n := test_cases.length
    let all_passed := acc.1 = n
    ((all_passed, mkSummary acc.1 n :: acc.2.1), acc.2.2)

/-! ## Spec-side helper definitions -/

/-- The feedback line and pass flag of one test case, as a function of the
case data and its run outcome alone.  The result component of `execute` does
not depend on the process-level state (`execute_result_indep` below), so this
characterises the contribution of the case independently of earlier cases. -/
def caseResult (timeout : ℕ) (code : PySource) (otc : RunOutcome) (i : ℕ)
    (tc : TestCase) (exp : Py) : String × Bool :=
  caseOutcome i exp (execute timeout code tc.function tc.args tc.kwargs otc ⟨0, [], 0⟩).1

/-- All characters of the string are ASCII. -/
def isAsciiStr (s : String) : Bool := s.data.all (fun c => c.toNat < 128)

/-- The value shapes named by the codec round-trip property: integers, ASCII
strings, and lists of integers. -/
def litShape : Py → Bool
  | .int _ => true
  | .str s => isAsciiStr s
  | .list xs => xs.all (fun x => match x with | .int _ => true | _ => false)
  | _ => false

/-- Little-endian decimal value of a digit list (proof-side counterpart of
`digitsVal`). -/
def digitsValR (l : List Char) : ℕ :=
  l.foldr (fun c acc => (c.toNat - 48) + 10 * acc) 0

/-- What follows the first element inside a printed list `repr`: nothing, or
`, ` and the remaining comma-separated elements. -/
def listTailRepr : List Py → List Char
  | [] => []
  | y :: ys => ',' :: ' ' :: pyReprListL (y :: ys)

/-- The per-case feedback lines of a validation run, each computed from its
own case data and run outcome alone. -/
def caseLines (timeout : ℕ) (code : PySource) (oracle : ℕ → RunOutcome) :
    List (TestCase × Py) → ℕ → List String
  | [], _ => []
  | (tc, exp) :: rest, i =>
    (caseResult timeout code (oracle i) i tc exp).1 ::
      caseLines timeout code oracle rest (i + 1)

/-- The number of passed cases of a validation run, each case judged from its
own case data and run outcome alone. -/
def caseCount (timeout : ℕ) (code : PySource) (oracle : ℕ → RunOutcome) :
    List (TestCase × Py) → ℕ → ℕ
  | [], _ => 0
  | (tc, exp) :: rest, i =>
    caseCount timeout code oracle rest (i + 1) +
      (if (caseResult timeout code (oracle i) i tc exp).2 then 1 else 0)

/-! ## Helper lemmas -/

lemma mem_le_foldr_max (x : ℕ) (l : List ℕ) (h : x ∈ l) : x ≤ l.foldr max 0 := by
  induction l with
  | nil => cases h
  | cons a t ih =>
    rcases List.mem_cons.mp h with rfl | h2
    · exact le_max_left _ _
    · exact le_trans (ih h2) (le_max_right _ _)

lemma freshName_not_mem (s : ExecState) : freshName s ∉ s.tempFiles := by
  intro h
  have hle := mem_le_foldr_max _ _ h
  simp only [freshName] at hle
  omega

lemma execute_rejected (timeout : ℕ) (code : PySource) (fn : Option String)
    (args : List Py) (kwargs : List (String × Py)) (outcome : RunOutcome) (s : ExecState)
    (h : is_safe_code code = false) :
    execute timeout code fn args kwargs outcome s = (⟨false, Py.none, rejectionMsg⟩, s) := by
  unfold execute
  simp [h]

lemma execute_safe (timeout : ℕ) (code : PySource) (fn : Option String)
    (args : List Py) (kwargs : List (String × Py)) (outcome : RunOutcome) (s : ExecState)
    (hsafe : is_safe_code code = true) :
    execute timeout code fn args kwargs outcome s =
      ((match outcome with
        | .completed out er => parseRun out er
        | .timedOut => ⟨false, Py.none, mkTimeoutMsg timeout⟩
        | .spawnError m => ⟨false, Py.none, mkExecErrorMsg m⟩),
       ⟨(s.semAvailable - 1) + 1,
        (freshName s :: s.tempFiles).erase (freshName s),
        match outcome with
        | .completed _ _ => s.spawned + 1
        | .timedOut => s.spawned + 1
        | .spawnError _ => s.spawned⟩) := by
  unfold execute
  cases outcome <;> simp [hsafe]

/-! ## Claim theorems: the Safety Pre-Screener and the runner invariants -/

/-- C2: for every screened input and every exit path of the run — normal
completion, timeout, spawn failure, or a runner-internal exception — the
semaphore count and the set of temporary files are unchanged after the call,
and the file created for the run is gone. -/
theorem execute_cleanup_invariant (timeout : ℕ) (code : PySource) (fn : Option String)
    (args : List Py) (kwargs : List (String × Py)) (outcome : RunOutcome) (s : ExecState)
    (hsafe : is_safe_code code = true) (hsem : 0 < s.semAvailable) :
    (execute timeout code fn args kwargs outcome s).2.semAvailable = s.semAvailable ∧
    (execute timeout code fn args kwargs outcome s).2.tempFiles = s.tempFiles ∧
    freshName s ∉ (execute timeout code fn args kwargs outcome s).2.tempFiles := by
  rw [execute_safe timeout code fn args kwargs outcome s hsafe]
  refine ⟨?_, ?_, ?_⟩
  · show s.semAvailable - 1 + 1 = s.semAvailable
    omega
  · show (freshName s :: s.tempFiles).erase (freshName s) = s.tempFiles
    exact List.erase_cons_head _ _
  · show freshName s ∉ (freshName s :: s.tempFiles).erase (freshName s)
    rw [List.erase_cons_head]
    exact freshName_not_mem s

/-- Witness for `execute_cleanup_invariant` at a concrete input. -/
theorem execute_cleanup_invariant_witness :
    (execute 5 ⟨"x = 1", some []⟩ Option.none [] [] RunOutcome.timedOut
        ⟨5, [], 0⟩).2.semAvailable = 5 ∧
    (execute 5 ⟨"x = 1", some []⟩ Option.none [] [] RunOutcome.timedOut
        ⟨5, [], 0⟩).2.tempFiles = [] :=
  ⟨(execute_cleanup_invariant 5 ⟨"x = 1", some []⟩ Option.none [] [] RunOutcome.timedOut
      ⟨5, [], 0⟩ (by decide) (by decide)).1,
   (execute_cleanup_invariant 5 ⟨"x = 1", some []⟩ Option.none [] [] RunOutcome.timedOut
      ⟨5, [], 0⟩ (by decide) (by decide)).2.1⟩

/-- Counterexample to C3 as stated: `"import os\ndef f(:"` contains an import
of the denied module `os`, but it fails to parse (`imports = none` models the
`SyntaxError` of `ast.parse`), so screening passes it and `execute` goes on
to spawn a process — a process-level side effect for a denied-import
source. -/
theorem denied_import_not_rejected_cex :
    is_safe_code ⟨"import os\ndef f(:", Option.none⟩ = true ∧
    (execute 5 ⟨"import os\ndef f(:", Option.none⟩ Option.none [] []
        (RunOutcome.completed "" "") ⟨5, [], 0⟩).2.spawned = 1 :=
  ⟨rfl, rfl⟩

/-- C3 (amended): for every source that parses, if some walked import
statement contributes a checked name that trips the deny-list, screening
returns `allowed = false` and `execute` returns the rejection with the
process-level state untouched — no semaphore unit, no temporary file, no
spawn. -/
theorem blocked_first_component_rejects (timeout : ℕ) (src : PySource)
    (imps : List ImportStmt) (im : ImportStmt) (fn : Option String) (args : List Py)
    (kwargs : List (String × Py)) (outcome : RunOutcome) (s : ExecState)
    (himps : src.imports = some imps) (hmem : im ∈ imps) (hb : importBlocked im = true) :
    is_safe_code src = false ∧
    execute timeout src fn args kwargs outcome s = (⟨false, Py.none, rejectionMsg⟩, s) := by
  have hany : imps.any importBlocked = true := List.any_eq_true.mpr ⟨im, hmem, hb⟩
  have h1 : is_safe_code src = false := by
    unfold is_safe_code
    rw [himps]
    simp [hany]
  exact ⟨h1, execute_rejected timeout src fn args kwargs outcome s h1⟩

/-- Witness for `blocked_first_component_rejects` at `import os`. -/
theorem blocked_first_component_rejects_witness :
    execute 7 ⟨"import os", some [⟨["os"], Option.none⟩]⟩ Option.none [] []
        RunOutcome.timedOut ⟨2, [], 0⟩ = (⟨false, Py.none, rejectionMsg⟩, ⟨2, [], 0⟩) :=
  (blocked_first_component_rejects 7 ⟨"import os", some [⟨["os"], Option.none⟩]⟩
    [⟨["os"], Option.none⟩] ⟨["os"], Option.none⟩ Option.none [] [] RunOutcome.timedOut
    ⟨2, [], 0⟩ rfl (by decide) (by decide)).2

/-- Counterexample to C4 as stated: `"eval("` contains the denied token
`eval` in its lowercased text, but it fails to parse, and on `SyntaxError`
the screener returns `True` before ever reaching the token scan — so the
scan does not fire "regardless of … parsing failed". -/
theorem token_scan_unparsable_cex :
    hasBlockedToken "eval(" = true ∧ is_safe_code ⟨"eval(", Option.none⟩ = true :=
  ⟨by decide, rfl⟩

/-- C4 (amended): for every source that parses, a denied token in the
lowercased raw text forces `allowed = false`, whatever the import check
concluded. -/
theorem token_scan_rejects_parsable (src : PySource) (imps : List ImportStmt)
    (himps : src.imports = some imps) (htok : hasBlockedToken src.text = true) :
    is_safe_code src = false := by
  unfold is_safe_code
  rw [himps]
  by_cases h : imps.any importBlocked <;> simp [h, htok]

/-- Witness for `token_scan_rejects_parsable` at `eval(x)`. -/
theorem token_scan_rejects_parsable_witness :
    is_safe_code ⟨"eval(x)", some []⟩ = false :=
  token_scan_rejects_parsable ⟨"eval(x)", some []⟩ [] rfl (by decide)

/-- C5: a source that fails to parse is passed through — screening returns
`allowed = true` whatever the raw text is. -/
theorem parse_failure_passes_through (text : String) :
    is_safe_code ⟨text, Option.none⟩ = true := rfl

/-- C10: the parse-based check compares only the first dotted component of
each imported name, so `import asyncio.subprocess` — whose full dotted name
is literally in the deny-list — is allowed, because only `asyncio` is
compared and `asyncio` is not denied. -/
theorem dotted_import_first_component_leak :
    blocked_imports.contains "asyncio.subprocess" = true ∧
    firstComp "asyncio.subprocess" = "asyncio" ∧
    blocked_imports.contains "asyncio" = false ∧
    is_safe_code ⟨"import asyncio.subprocess",
      some [⟨["asyncio.subprocess"], Option.none⟩]⟩ = true :=
  ⟨by decide, by decide, by decide, by decide⟩

/-- C8: an empty test-case list makes `validate_solution` return immediately
with `allPassed = true`, exactly the one informational feedback line, and no
state change (nothing is screened or run). -/
theorem validate_empty_tests (timeout : ℕ) (code : PySource) (exps : List Py)
    (oracle : ℕ → RunOutcome) (s : ExecState) :
    validate_solution timeout code [] exps oracle s =
      ((true, ["No test cases defined"]), s) := rfl

/-! ## Claim C1: rejected source with a non-empty test-case list -/

lemma caseOutcome_fail (i : ℕ) (exp : Py) (e : String) :
    caseOutcome i exp ⟨false, Py.none, e⟩ = (failLine i e, false) := rfl

lemma runCases_rejected (timeout : ℕ) (code : PySource) (oracle : ℕ → RunOutcome)
    (h : is_safe_code code = false) :
    ∀ (pairs : List (TestCase × Py)) (i : ℕ) (s : ExecState),
    runCases timeout code oracle pairs i s =
      (0, (List.range pairs.length).map (fun j => failLine (i + j) rejectionMsg), s) := by
  intro pairs
  induction pairs with
  | nil => intro i s; rfl
  | cons p rest ih =>
    intro i s
    obtain ⟨tc, exp⟩ := p
    simp only [runCases, execute_rejected timeout code tc.function tc.args tc.kwargs
      (oracle i) s h, caseOutcome_fail, ih, List.length_cons]
    have hmap : (List.range (rest.length + 1)).map (fun j => failLine (i + j) rejectionMsg) =
        failLine i rejectionMsg ::
          (List.range rest.length).map (fun j => failLine (i + 1 + j) rejectionMsg) := by
      rw [List.range_succ_eq_map, List.map_cons, List.map_map]
      refine congrArg₂ _ (by simp) ?_
      apply List.map_congr_left
      intro j _
      simp only [Function.comp_apply]
      congr 1
      omega
    rw [hmap]
    simp

/-- Counterexample to C1 as stated: a rejected source with two test cases
produces a summary line plus one rejection line per test case — the
validation is not short-circuited to a single rejection feedback line. -/
theorem validate_unsafe_cex :
    validate_solution 5 ⟨"eval(x)", some []⟩
        [⟨some "f", [], []⟩, ⟨some "f", [], []⟩] [Py.int 1, Py.int 2]
        (fun _ => RunOutcome.timedOut) ⟨5, [], 0⟩ =
      ((false, ["⚠️  0/2 test cases passed",
                "❌ Test 1: Code contains unsafe operations (blocked import or call).",
                "❌ Test 2: Code contains unsafe operations (blocked import or call)."]),
       ⟨5, [], 0⟩) ∧
    (validate_solution 5 ⟨"eval(x)", some []⟩
        [⟨some "f", [], []⟩, ⟨some "f", [], []⟩] [Py.int 1, Py.int 2]
        (fun _ => RunOutcome.timedOut) ⟨5, [], 0⟩).1.2.length = 3 :=
  ⟨rfl, rfl⟩

/-- C1 (amended): for every source the screener rejects and every non-empty
test-case list (with matching expected outputs), `validate_solution` returns
`allPassed = false`, and the feedback is the failure summary followed by one
rejection line per test case, each embedding the rejection message; the
process-level state is untouched. -/
theorem validate_unsafe_per_case (timeout : ℕ) (code : PySource) (tcs : List TestCase)
    (exps : List Py) (oracle : ℕ → RunOutcome) (s : ExecState)
    (h : is_safe_code code = false) (hne : tcs ≠ []) (hlen : tcs.length = exps.length) :
    validate_solution timeout code tcs exps oracle s =
      ((false, mkSummary 0 tcs.length ::
        (List.range tcs.length).map (fun j => failLine (1 + j) rejectionMsg)), s) := by
  have hz : (tcs.zip exps).length = tcs.length := by
    rw [List.length_zip, ← hlen, Nat.min_self]
  have hne2 : tcs.isEmpty = false := by
    cases tcs with
    | nil => exact absurd rfl hne
    | cons a t => rfl
  have hn0 : (0 = tcs.length) = False := by
    cases tcs with
    | nil => exact absurd rfl hne
    | cons a t => simp
  unfold validate_solution
  simp only [hne2, Bool.false_eq_true, if_false,
    runCases_rejected timeout code oracle h (tcs.zip exps) 1 s, hz, hn0]
  simp

/-- Witness for `validate_unsafe_per_case` at a concrete input. -/
theorem validate_unsafe_per_case_witness :
    validate_solution 5 ⟨"exec(x)", some []⟩ [⟨some "g", [], []⟩] [Py.int 7]
        (fun _ => RunOutcome.timedOut) ⟨3, [], 0⟩ =
      ((false, mkSummary 0 1 ::
        (List.range 1).map (fun j => failLine (1 + j) rejectionMsg)), ⟨3, [], 0⟩) :=
  validate_unsafe_per_case 5 ⟨"exec(x)", some []⟩ [⟨some "g", [], []⟩] [Py.int 7]
    (fun _ => RunOutcome.timedOut) ⟨3, [], 0⟩ (by decide) (List.cons_ne_nil _ _) rfl

/-! ## Claim C6: the fallback on empty or undecodable stdout -/

/-- Fidelity of the decode model at a float payload: `json.loads` accepts
`1.5` (a float), `payload.get` then raises `AttributeError`, and the outer
handler at line 383 reports it — the decode-failure fallback is not
taken. -/
lemma parseRun_float_payload :
    jsonLoads "1.5" = some (.float "1.5") ∧
    parseRun "1.5" "" =
      ⟨false, Py.none,
       "Execution error: \x27float\x27 object has no attribute \x27get\x27"⟩ :=
  ⟨rfl, rfl⟩

/-- Fidelity of the decode model at a leading-zero number: `json.loads`
rejects `007` (the number ends after the `0` and the rest is extra data), so
the decode-failure fallback of line 376 is taken. -/
lemma parseRun_leading_zero_number :
    jsonLoads "007" = Option.none ∧
    parseRun "007" "" = ⟨false, Py.none, "Invalid output format"⟩ :=
  ⟨rfl, rfl⟩

/-! ## Claim C7: timeout of a single case -/

lemma execute_result_indep (timeout : ℕ) (code : PySource) (fn : Option String)
    (args : List Py) (kwargs : List (String × Py)) (outcome : RunOutcome)
    (s s2 : ExecState) :
    (execute timeout code fn args kwargs outcome s).1 =
    (execute timeout code fn args kwargs outcome s2).1 := by
  by_cases h : is_safe_code code = false
  · rw [execute_rejected timeout code fn args kwargs outcome s h,
      execute_rejected timeout code fn args kwargs outcome s2 h]
  · have h2 : is_safe_code code = true := by
      cases hv : is_safe_code code
      · exact absurd hv h
      · rfl
    rw [execute_safe timeout code fn args kwargs outcome s h2,
      execute_safe timeout code fn args kwargs outcome s2 h2]

lemma runCases_fst (timeout : ℕ) (code : PySource) (oracle : ℕ → RunOutcome) :
    ∀ (pairs : List (TestCase × Py)) (i : ℕ) (s : ExecState),
    (runCases timeout code oracle pairs i s).1 = caseCount timeout code oracle pairs i := by
  intro pairs
  induction pairs with
  | nil => intro i s; rfl
  | cons p rest ih =>
    intro i s
    obtain ⟨tc, exp⟩ := p
    simp only [runCases, caseCount, ih]
    have hr : (execute timeout code tc.function tc.args tc.kwargs (oracle i) s).1 =
        (execute timeout code tc.function tc.args tc.kwargs (oracle i) ⟨0, [], 0⟩).1 :=
      execute_result_indep timeout code tc.function tc.args tc.kwargs (oracle i) s ⟨0, [], 0⟩
    rw [hr]
    rfl

lemma runCases_lines (timeout : ℕ) (code : PySource) (oracle : ℕ → RunOutcome) :
    ∀ (pairs : List (TestCase × Py)) (i : ℕ) (s : ExecState),
    (runCases timeout code oracle pairs i s).2.1 = caseLines timeout code oracle pairs i := by
  intro pairs
  induction pairs with
  | nil => intro i s; rfl
  | cons p rest ih =>
    intro i s
    obtain ⟨tc, exp⟩ := p
    simp only [runCases, caseLines, ih]
    have hr : (execute timeout code tc.function tc.args tc.kwargs (oracle i) s).1 =
        (execute timeout code tc.function tc.args tc.kwargs (oracle i) ⟨0, [], 0⟩).1 :=
      execute_result_indep timeout code tc.function tc.args tc.kwargs (oracle i) s ⟨0, [], 0⟩
    rw [hr]
    rfl

lemma caseLines_get (timeout : ℕ) (code : PySource) (oracle : ℕ → RunOutcome) :
    ∀ (pairs : List (TestCase × Py)) (i j : ℕ) (tc : TestCase) (exp : Py),
    pairs.get? j = some (tc, exp) →
    (caseLines timeout code oracle pairs i).get? j =
      some ((caseResult timeout code (oracle (i + j)) (i + j) tc exp).1) := by
  intro pairs
  induction pairs with
  | nil => intro i j tc exp hj; simp at hj
  | cons p rest ih =>
    intro i j tc exp hj
    obtain ⟨tc2, exp2⟩ := p
    cases j with
    | zero =>
      simp only [List.get?_cons_zero, Option.some_inj] at hj
      obtain ⟨h1, h2⟩ := Prod.mk.injEq .. ▸ hj
      simp only [caseLines, List.get?_cons_zero, Nat.add_zero]
      rw [← h1, ← h2]
    | succ j2 =>
      simp only [List.get?_cons_succ] at hj
      simp only [caseLines, List.get?_cons_succ]
      have harith : i + (j2 + 1) = (i + 1) + j2 := by omega
      rw [harith]
      exact ih (i + 1) j2 tc exp hj

lemma caseCount_le (timeout : ℕ) (code : PySource) (oracle : ℕ → RunOutcome) :
    ∀ (pairs : List (TestCase × Py)) (i : ℕ),
    caseCount timeout code oracle pairs i ≤ pairs.length := by
  intro pairs
  induction pairs with
  | nil => intro i; simp [caseCount]
  | cons p rest ih =>
    intro i
    obtain ⟨tc, exp⟩ := p
    simp only [caseCount, List.length_cons]
    have := ih (i + 1)
    by_cases hp : (caseResult timeout code (oracle i) i tc exp).2 <;> simp [hp] <;> omega

lemma caseCount_lt_of_fail (timeout : ℕ) (code : PySource) (oracle : ℕ → RunOutcome) :
    ∀ (pairs : List (TestCase × Py)) (i j : ℕ) (tc : TestCase) (exp : Py),
    pairs.get? j = some (tc, exp) →
    (caseResult timeout code (oracle (i + j)) (i + j) tc exp).2 = false →
    caseCount timeout code oracle pairs i < pairs.length := by
  intro pairs
  induction pairs with
  | nil => intro i j tc exp hj; simp at hj
  | cons p rest ih =>
    intro i j tc exp hj hfail
    obtain ⟨tc2, exp2⟩ := p
    cases j with
    | zero =>
      simp only [List.get?_cons_zero, Option.some_inj] at hj
      obtain ⟨h1, h2⟩ := Prod.mk.injEq .. ▸ hj
      simp only [caseCount, List.length_cons]
      rw [Nat.add_zero] at hfail
      rw [← h1, ← h2] at hfail
      simp only [hfail]
      have := caseCount_le timeout code oracle rest (i + 1)
      simp
      omega
    | succ j2 =>
      simp only [List.get?_cons_succ] at hj
      have harith : i + (j2 + 1) = (i + 1) + j2 := by omega
      rw [harith] at hfail
      have := ih (i + 1) j2 tc exp hj hfail
      simp only [caseCount, List.length_cons]
      by_cases hp : (caseResult timeout code (oracle i) i tc2 exp2).2 <;> simp [hp] <;> omega

lemma zip_get (α β : Type) :
    ∀ (l1 : List α) (l2 : List β) (k : ℕ) (x : α) (y : β),
    l1.get? k = some x → l2.get? k = some y → (l1.zip l2).get? k = some (x, y) := by
  intro l1
  induction l1 with
  | nil => intro l2 k x y h1; simp at h1
  | cons a t ih =>
    intro l2 k x y h1 h2
    cases l2 with
    | nil => simp at h2
    | cons b t2 =>
      cases k with
      | zero =>
        simp only [List.get?_cons_zero, Option.some_inj] at h1 h2
        simp [List.zip_cons_cons, h1, h2]
      | succ k2 =>
        simp only [List.get?_cons_succ] at h1 h2
        simp only [List.zip_cons_cons, List.get?_cons_succ]
        exact ih t2 k2 x y h1 h2

lemma startsWithL_self (n b : List Char) : startsWithL n (n ++ b) = true := by
  induction n with
  | nil => rfl
  | cons a t ih => simp [startsWithL, ih]

lemma hasSub_mid (n a b : List Char) : hasSub n (a ++ (n ++ b)) = true := by
  induction a with
  | nil =>
    simp only [List.nil_append]
    cases n with
    | nil =>
      cases b with
      | nil => rfl
      | cons c t => simp [hasSub, startsWithL]
    | cons c t =>
      simp only [List.cons_append, hasSub]
      have hs : startsWithL (c :: t) (c :: t.append b) = true := startsWithL_self (c :: t) b
      rw [hs]
      rfl
  | cons x a2 ih => simp [hasSub, ih]

lemma caseResult_timeout (timeout : ℕ) (code : PySource) (i : ℕ) (tc : TestCase) (exp : Py)
    (hsafe : is_safe_code code = true) :
    caseResult timeout code RunOutcome.timedOut i tc exp =
      (failLine i (mkTimeoutMsg timeout), false) := by
  unfold caseResult
  rw [execute_safe timeout code tc.function tc.args tc.kwargs RunOutcome.timedOut
    ⟨0, [], 0⟩ hsafe]
  rfl

/-- C7: if the sandboxed run of the `k`-th test case times out (while the
source passes screening), its feedback line is the failure line embedding the
timeout message, that message names the configured time limit, the case
counts as failed (so `allPassed = false`), and every case `j` — in
particular every later one — still gets exactly the feedback line its own
run outcome determines. -/
theorem validate_timeout_case (timeout : ℕ) (code : PySource) (oracle : ℕ → RunOutcome)
    (tcs : List TestCase) (exps : List Py) (s : ExecState) (k : ℕ)
    (tc0 : TestCase) (exp0 : Py)
    (hsafe : is_safe_code code = true)
    (hlen : tcs.length = exps.length)
    (htc : tcs.get? k = some tc0) (hexp : exps.get? k = some exp0)
    (horc : oracle (1 + k) = RunOutcome.timedOut) :
    (validate_solution timeout code tcs exps oracle s).1.2.get? (k + 1) =
        some (failLine (1 + k) (mkTimeoutMsg timeout)) ∧
    hasSub (Nat.repr timeout).data (failLine (1 + k) (mkTimeoutMsg timeout)).data = true ∧
    (validate_solution timeout code tcs exps oracle s).1.1 = false ∧
    (∀ (j : ℕ) (tcj : TestCase) (expj : Py),
      tcs.get? j = some tcj → exps.get? j = some expj →
      (validate_solution timeout code tcs exps oracle s).1.2.get? (j + 1) =
        some ((caseResult timeout code (oracle (1 + j)) (1 + j) tcj expj).1)) := by
  have hne2 : tcs.isEmpty = false := by
    cases tcs with
    | nil => simp at htc
    | cons a t => rfl
  have hz : (tcs.zip exps).length = tcs.length := by
    rw [List.length_zip, ← hlen, Nat.min_self]
  have hpair : (tcs.zip exps).get? k = some (tc0, exp0) :=
    zip_get TestCase Py tcs exps k tc0 exp0 htc hexp
  have hfeed : (validate_solution timeout code tcs exps oracle s).1.2 =
      mkSummary (caseCount timeout code oracle (tcs.zip exps) 1) tcs.length ::
        caseLines timeout code oracle (tcs.zip exps) 1 := by
    unfold validate_solution
    simp only [hne2, Bool.false_eq_true, if_false,
      runCases_fst timeout code oracle (tcs.zip exps) 1 s,
      runCases_lines timeout code oracle (tcs.zip exps) 1 s]
  have hflag : (validate_solution timeout code tcs exps oracle s).1.1 =
      decide (caseCount timeout code oracle (tcs.zip exps) 1 = tcs.length) := by
    unfold validate_solution
    simp only [hne2, Bool.false_eq_true, if_false,
      runCases_fst timeout code oracle (tcs.zip exps) 1 s]
  have hct : caseResult timeout code (oracle (1 + k)) (1 + k) tc0 exp0 =
      (failLine (1 + k) (mkTimeoutMsg timeout), false) := by
    rw [horc]
    exact caseResult_timeout timeout code (1 + k) tc0 exp0 hsafe
  refine ⟨?_, ?_, ?_, ?_⟩
  · rw [hfeed]
    simp only [List.get?_cons_succ]
    rw [caseLines_get timeout code oracle (tcs.zip exps) 1 k tc0 exp0 hpair, hct]
  · have hdata : (failLine (1 + k) (mkTimeoutMsg timeout)).data =
        ("❌ Test ".data ++ (Nat.repr (1 + k)).data ++ ": ".data ++
          "Execution timeout (".data) ++
          ((Nat.repr timeout).data ++ "s exceeded)".data) := by
      simp [failLine, mkTimeoutMsg, String.data_append, List.append_assoc]
    rw [hdata]
    exact hasSub_mid _ _ _
  · rw [hflag]
    have hlt : caseCount timeout code oracle (tcs.zip exps) 1 < tcs.length := by
      have hfail : (caseResult timeout code (oracle (1 + k)) (1 + k) tc0 exp0).2 = false := by
        rw [hct]
      have := caseCount_lt_of_fail timeout code oracle (tcs.zip exps) 1 k tc0 exp0 hpair hfail
      rw [hz] at this
      exact this
    exact decide_eq_false (Nat.ne_of_lt hlt)
  · intro j tcj expj htcj hexpj
    have hpj : (tcs.zip exps).get? j = some (tcj, expj) :=
      zip_get TestCase Py tcs exps j tcj expj htcj hexpj
    rw [hfeed]
    simp only [List.get?_cons_succ]
    exact caseLines_get timeout code oracle (tcs.zip exps) 1 j tcj expj hpj

/-- Witness for `validate_timeout_case` at a concrete input. -/
theorem validate_timeout_case_witness :
    (validate_solution 5 ⟨"x = 1", some []⟩ [⟨some "f", [], []⟩, ⟨some "f", [], []⟩]
        [Py.int 1, Py.int 2] (fun _ => RunOutcome.timedOut) ⟨5, [], 0⟩).1.2.get? 1 =
      some (failLine 1 (mkTimeoutMsg 5)) ∧
    (validate_solution 5 ⟨"x = 1", some []⟩ [⟨some "f", [], []⟩, ⟨some "f", [], []⟩]
        [Py.int 1, Py.int 2] (fun _ => RunOutcome.timedOut) ⟨5, [], 0⟩).1.1 = false := by
  have h := validate_timeout_case 5 ⟨"x = 1", some []⟩ (fun _ => RunOutcome.timedOut)
    [⟨some "f", [], []⟩, ⟨some "f", [], []⟩] [Py.int 1, Py.int 2] ⟨5, [], 0⟩ 0
    ⟨some "f", [], []⟩ (Py.int 1) (by decide) rfl rfl rfl rfl
  exact ⟨h.1, h.2.2.1⟩

/-! ## Claim C9: round trip of the Literal Value Codec

The plan: prefix-level lemmas showing that `litP` parses exactly the output
of `pyReprL` for integers, strings and lists of integers, then the top-level
`literalEval (pyRepr v) = some v`.
-/

lemma char_eq_of_toNat_eq (c d : Char) (h : c.toNat = d.toNat) : c = d := by
  rw [← Char.ofNat_toNat c, h, Char.ofNat_toNat]

lemma char_beq_false_of_toNat_ne (c d : Char) (h : c.toNat ≠ d.toNat) : (c == d) = false :=
  beq_eq_false_iff_ne.mpr (fun he => h (he ▸ rfl))

lemma isDig_bounds (c : Char) (h : isDig c = true) : 48 ≤ c.toNat ∧ c.toNat ≤ 57 := by
  simpa [isDig, Bool.and_eq_true, decide_eq_true_eq] using h

lemma digit_beq_false (c d : Char) (hc : isDig c = true)
    (hd : d.toNat < 48 ∨ 57 < d.toNat) : (c == d) = false := by
  have := isDig_bounds c hc
  exact char_beq_false_of_toNat_ne c d (by omega)

lemma isWsChar_false_of_digit (c : Char) (hc : isDig c = true) : isWsChar c = false := by
  have hb := isDig_bounds c hc
  simp only [isWsChar]
  rw [char_beq_false_of_toNat_ne c ' ' (by simp; omega),
    char_beq_false_of_toNat_ne c '\t' (by simp; omega),
    char_beq_false_of_toNat_ne c '\n' (by simp; omega),
    char_beq_false_of_toNat_ne c '\r' (by simp; omega)]
  rfl

lemma isDig_digitChar (d : ℕ) (h : d < 10) : isDig (Nat.digitChar d) = true := by
  interval_cases d <;> rfl

lemma sub48_digitChar (d : ℕ) (h : d < 10) : (Nat.digitChar d).toNat - 48 = d := by
  interval_cases d <;> rfl

lemma hexVal_digitChar (d : ℕ) (h : d < 16) : hexVal (Nat.digitChar d) = some d := by
  interval_cases d <;> rfl

lemma natReprAux_all_dig : ∀ (fuel n : ℕ), (natReprAux fuel n).all isDig = true := by
  intro fuel
  induction fuel with
  | zero => intro n; cases n <;> rfl
  | succ f ih =>
    intro n
    cases n with
    | zero => rfl
    | succ m =>
      simp only [natReprAux, List.all_cons, Bool.and_eq_true]
      exact ⟨isDig_digitChar _ (Nat.mod_lt _ (by omega)), ih _⟩

lemma natReprAux_val : ∀ (fuel n : ℕ), n ≤ fuel → digitsValR (natReprAux fuel n) = n := by
  intro fuel
  induction fuel with
  | zero => intro n h; interval_cases n; rfl
  | succ f ih =>
    intro n h
    cases n with
    | zero => rfl
    | succ m =>
      have hdiv : (m + 1) / 10 ≤ f := by
        have : (m + 1) / 10 < m + 1 := Nat.div_lt_self (by omega) (by omega)
        omega
      simp only [natReprAux, digitsValR, List.foldr_cons]
      have hrec : (natReprAux f ((m + 1) / 10)).foldr
          (fun c acc => c.toNat - 48 + 10 * acc) 0 = (m + 1) / 10 := ih _ hdiv
      rw [hrec, sub48_digitChar _ (Nat.mod_lt _ (by omega))]
      omega

lemma natRepr_all_dig (n : ℕ) : (natRepr n).all isDig = true := by
  unfold natRepr
  split
  · rfl
  · rw [List.all_reverse]
    exact natReprAux_all_dig n n

lemma natRepr_ne_nil (n : ℕ) : natRepr n ≠ [] := by
  unfold natRepr
  split
  · simp
  · rename_i h
    cases n with
    | zero => exact absurd rfl h
    | succ m => simp [natReprAux]

lemma digitsVal_reverse (l : List Char) : digitsVal l.reverse = digitsValR l := by
  unfold digitsVal digitsValR
  rw [List.foldl_reverse]
  congr 1
  funext c acc
  omega

lemma digitsVal_natRepr (n : ℕ) : digitsVal (natRepr n) = n := by
  unfold natRepr
  split
  · rename_i h
    subst h
    rfl
  · rw [digitsVal_reverse]
    exact natReprAux_val n n le_rfl

lemma takeWhile_all_append (p : Char → Bool) (l rest : List Char)
    (hall : l.all p = true)
    (hrest : ∀ c, rest.head? = some c → p c = false) :
    (l ++ rest).takeWhile p = l ∧ (l ++ rest).dropWhile p = rest := by
  induction l with
  | nil =>
    cases rest with
    | nil => exact ⟨rfl, rfl⟩
    | cons c t =>
      have := hrest c rfl
      simp [List.takeWhile_cons, List.dropWhile_cons, this]
  | cons a t ih =>
    simp only [List.all_cons, Bool.and_eq_true] at hall
    obtain ⟨ha, ht⟩ := hall
    have := ih ht
    simp [List.takeWhile_cons, List.dropWhile_cons, ha, this.1, this.2]

lemma skipWs_cons_not_ws (c : Char) (l : List Char) (h : isWsChar c = false) :
    skipWs (c :: l) = c :: l := by
  simp [skipWs, List.dropWhile_cons, h]

lemma skipWs_space (l : List Char) : skipWs (' ' :: l) = skipWs l := by
  simp only [skipWs, List.dropWhile_cons, show isWsChar ' ' = true from rfl, if_true]

/-- `litP` in value mode consumes exactly the printed digits of `n` when what
follows is not a digit. -/
lemma litP_digits (fuel : ℕ) (acc : List Py) (n : ℕ) (rest : List Char)
    (hrest : ∀ c, rest.head? = some c → isDig c = false) :
    litP (fuel + 1) 0 acc (natRepr n ++ rest) = some (.int (Int.ofNat n), rest) := by
  obtain ⟨d, ds, hds⟩ : ∃ d ds, natRepr n = d :: ds := by
    cases hnr : natRepr n with
    | nil => exact absurd hnr (natRepr_ne_nil n)
    | cons d ds => exact ⟨d, ds, rfl⟩
  have hall : (natRepr n).all isDig = true := natRepr_all_dig n
  have hd : isDig d = true := by
    rw [hds, List.all_cons, Bool.and_eq_true] at hall
    exact hall.1
  have htake := takeWhile_all_append isDig (natRepr n) rest (natRepr_all_dig n) hrest
  have hskip : skipWs (natRepr n ++ rest) = d :: (ds ++ rest) := by
    rw [hds]
    exact skipWs_cons_not_ws d _ (isWsChar_false_of_digit d hd)
  simp only [litP]
  rw [hskip]
  simp only [digit_beq_false d '[' hd (by decide), digit_beq_false d '-' hd (by decide),
    Bool.false_eq_true, if_false, hd, if_true]
  rw [show d :: (ds ++ rest) = natRepr n ++ rest from by rw [hds]; rfl]
  rw [htake.1, htake.2, digitsVal_natRepr]
  rfl

/-- `litP` in value mode consumes exactly the printed form of a negative
integer when what follows is not a digit. -/
lemma litP_neg (fuel : ℕ) (acc : List Py) (m : ℕ) (rest : List Char)
    (hrest : ∀ c, rest.head? = some c → isDig c = false) :
    litP (fuel + 1) 0 acc (('-' :: natRepr (m + 1)) ++ rest) =
      some (.int (Int.negSucc m), rest) := by
  have htake := takeWhile_all_append isDig (natRepr (m + 1)) rest (natRepr_all_dig _) hrest
  have hne : (natRepr (m + 1) ++ rest).takeWhile isDig ≠ [] := by
    rw [htake.1]
    exact natRepr_ne_nil _
  simp only [litP, List.cons_append]
  rw [skipWs_cons_not_ws '-' _ (by decide)]
  simp only [show (('-' : Char) == '[') = false from by decide, Bool.false_eq_true, if_false,
    show (('-' : Char) == '-') = true from by decide, if_true]
  rw [htake.1, htake.2]
  have hem : (natRepr (m + 1)).isEmpty = false := by
    cases hnr : natRepr (m + 1) with
    | nil => exact absurd hnr (natRepr_ne_nil _)
    | cons a b => rfl
  simp only [hem, Bool.false_eq_true, if_false]
  rw [digitsVal_natRepr]
  have : -((m + 1 : ℕ) : ℤ) = Int.negSucc m := by
    rw [Int.negSucc_eq]
    push_cast
    ring
  rw [this]

/-- `litP` in value mode parses the `repr` of any integer when what follows
is not a digit. -/
lemma litP_int (fuel : ℕ) (acc : List Py) (k : ℤ) (rest : List Char)
    (hrest : ∀ c, rest.head? = some c → isDig c = false) :
    litP (fuel + 1) 0 acc (intReprL k ++ rest) = some (.int k, rest) := by
  cases k with
  | ofNat n => exact litP_digits fuel acc n rest hrest
  | negSucc m => exact litP_neg fuel acc m rest hrest

lemma litStrGo_close (q : Char) (l : List Char) : litStrGo q (q :: l) = some ([], l) := by
  have h0 : litStrGo q (q :: l) =
      if (q == q) = true then some ([], l)
      else if (q == '\\') = true then litEsc q l
      else (litStrGo q l).map (fun p => (q :: p.1, p.2)) := rfl
  rw [h0, beq_self_eq_true]
  simp

lemma litStrGo_raw (q c : Char) (l : List Char) (h1 : (c == q) = false)
    (h2 : (c == '\\') = false) :
    litStrGo q (c :: l) = (litStrGo q l).map (fun p => (c :: p.1, p.2)) := by
  have h0 : litStrGo q (c :: l) =
      if (c == q) = true then some ([], l)
      else if (c == '\\') = true then litEsc q l
      else (litStrGo q l).map (fun p => (c :: p.1, p.2)) := rfl
  rw [h0, h1, h2]
  simp

lemma litStrGo_bs (q : Char) (l : List Char) (hbq : (('\\' : Char) == q) = false) :
    litStrGo q ('\\' :: l) = litEsc q l := by
  have h0 : litStrGo q ('\\' :: l) =
      if (('\\' : Char) == q) = true then some ([], l)
      else litEsc q l := rfl
  rw [h0, hbq]
  simp

lemma litEsc_n (q : Char) (l : List Char) :
    litEsc q ('n' :: l) = (litStrGo q l).map (fun p => ('\n' :: p.1, p.2)) := rfl

lemma litEsc_r (q : Char) (l : List Char) :
    litEsc q ('r' :: l) = (litStrGo q l).map (fun p => ('\r' :: p.1, p.2)) := rfl

lemma litEsc_t (q : Char) (l : List Char) :
    litEsc q ('t' :: l) = (litStrGo q l).map (fun p => ('\t' :: p.1, p.2)) := rfl

lemma litEsc_bs (q : Char) (l : List Char) :
    litEsc q ('\\' :: l) = (litStrGo q l).map (fun p => ('\\' :: p.1, p.2)) := rfl

lemma litEsc_dq (q : Char) (l : List Char) :
    litEsc q ('"' :: l) = (litStrGo q l).map (fun p => ('"' :: p.1, p.2)) := rfl

lemma litEsc_sq (q : Char) (l : List Char) :
    litEsc q (quoteChar :: l) = (litStrGo q l).map (fun p => (quoteChar :: p.1, p.2)) := rfl

lemma litEsc_hex (q h1c h2c : Char) (l : List Char) (a b : ℕ)
    (ha : hexVal h1c = some a) (hb : hexVal h2c = some b) :
    litEsc q ('x' :: h1c :: h2c :: l) =
      (litStrGo q l).map (fun p => (Char.ofNat (16 * a + b) :: p.1, p.2)) := by
  have h0 : litEsc q ('x' :: h1c :: h2c :: l) =
      if (hexVal h1c).isSome && (hexVal h2c).isSome then
        (litStrGo q l).map
          (fun p => (Char.ofNat (16 * (hexVal h1c).getD 0 + (hexVal h2c).getD 0) :: p.1, p.2))
      else none := rfl
  rw [h0, ha, hb]
  simp

/-- The literal string-body parser inverts the `repr` escaper, for either
quote choice. -/
lemma litStrGo_round (q : Char) (hq : q = '"' ∨ q = quoteChar) :
    ∀ (cs rest : List Char), litStrGo q (strBody q cs ++ (q :: rest)) = some (cs, rest) := by
  have hbq : (('\\' : Char) == q) = false := by rcases hq with rfl | rfl <;> decide
  intro cs
  induction cs with
  | nil =>
    intro rest
    simp only [strBody, List.nil_append]
    exact litStrGo_close q rest
  | cons c t ih =>
    intro rest
    simp only [strBody, List.append_assoc]
    cases h1 : c == '\\' with
    | true =>
      have hc : c = '\\' := eq_of_beq h1
      subst hc
      have hesc : escChar q '\\' = ['\\', '\\'] := by simp [escChar]
      rw [hesc]
      simp only [List.cons_append, List.nil_append]
      rw [litStrGo_bs q _ hbq, litEsc_bs, ih]
      rfl
    | false =>
      cases h2 : c == q with
      | true =>
        have hc : c = q := eq_of_beq h2
        have hesc : escChar q c = ['\\', q] := by
          simp only [escChar, h1, Bool.false_eq_true, if_false, h2, if_true]
        rw [hesc]
        simp only [List.cons_append, List.nil_append]
        rw [litStrGo_bs q _ hbq]
        rcases hq with rfl | rfl
        · rw [litEsc_dq, ih, hc]
          rfl
        · rw [litEsc_sq, ih, hc]
          rfl
      | false =>
        cases h3 : c == '\n' with
        | true =>
          have hc : c = '\n' := eq_of_beq h3
          subst hc
          have hesc : escChar q '\n' = ['\\', 'n'] := by
            simp only [escChar, show (('\n' : Char) == '\\') = false from by decide,
              h2, Bool.false_eq_true, if_false, beq_self_eq_true, if_true]
          rw [hesc]
          simp only [List.cons_append, List.nil_append]
          rw [litStrGo_bs q _ hbq, litEsc_n, ih]
          rfl
        | false =>
          cases h4 : c == '\r' with
          | true =>
            have hc : c = '\r' := eq_of_beq h4
            subst hc
            have hesc : escChar q '\r' = ['\\', 'r'] := by
              simp only [escChar, show (('\r' : Char) == '\\') = false from by decide,
                h2, show (('\r' : Char) == '\n') = false from by decide,
                Bool.false_eq_true, if_false, beq_self_eq_true, if_true]
            rw [hesc]
            simp only [List.cons_append, List.nil_append]
            rw [litStrGo_bs q _ hbq, litEsc_r, ih]
            rfl
          | false =>
            cases h5 : c == '\t' with
            | true =>
              have hc : c = '\t' := eq_of_beq h5
              subst hc
              have hesc : escChar q '\t' = ['\\', 't'] := by
                simp only [escChar, show (('\t' : Char) == '\\') = false from by decide,
                  h2, show (('\t' : Char) == '\n') = false from by decide,
                  show (('\t' : Char) == '\r') = false from by decide,
                  Bool.false_eq_true, if_false, beq_self_eq_true, if_true]
              rw [hesc]
              simp only [List.cons_append, List.nil_append]
              rw [litStrGo_bs q _ hbq, litEsc_t, ih]
              rfl
            | false =>
              by_cases hp : c.toNat < 32 ∨ c.toNat = 127
              · have hdiv : c.toNat / 16 < 16 := by omega
                have hmod : c.toNat % 16 < 16 := by omega
                have hb6 : (decide (c.toNat < 32) || c.toNat == 127) = true := by
                  rcases hp with hp | hp <;> simp [hp]
                have hesc : escChar q c =
                    ['\\', 'x', Nat.digitChar (c.toNat / 16), Nat.digitChar (c.toNat % 16)] := by
                  simp only [escChar, h1, h2, h3, h4, h5, Bool.false_eq_true, if_false,
                    hb6, if_true]
                rw [hesc]
                simp only [List.cons_append, List.nil_append]
                rw [litStrGo_bs q _ hbq,
                  litEsc_hex q _ _ _ (c.toNat / 16) (c.toNat % 16)
                    (hexVal_digitChar _ hdiv) (hexVal_digitChar _ hmod)]
                rw [show 16 * (c.toNat / 16) + c.toNat % 16 = c.toNat from by omega,
                  Char.ofNat_toNat, ih]
                rfl
              · have hb6 : (decide (c.toNat < 32) || c.toNat == 127) = false := by
                  simp only [Bool.or_eq_false_iff, decide_eq_false_iff_not,
                    beq_eq_false_iff_ne]
                  push_neg at hp
                  exact ⟨by omega, by omega⟩
                have hesc : escChar q c = [c] := by
                  simp only [escChar, h1, h2, h3, h4, h5, Bool.false_eq_true, if_false,
                    hb6]
                rw [hesc]
                simp only [List.cons_append, List.nil_append]
                rw [litStrGo_raw q c _ h2 h1, ih]
                rfl

/-- `litP` in value mode parses the `repr` of any string. -/
lemma litP_str (fuel : ℕ) (acc : List Py) (s : String) (rest : List Char) :
    litP (fuel + 1) 0 acc (strReprL s ++ rest) = some (.str s, rest) := by
  unfold strReprL
  by_cases hcq : (s.data.contains quoteChar && !(s.data.contains '"')) = true
  · simp only [hcq, if_true]
    simp only [litP, List.cons_append, List.append_assoc]
    rw [skipWs_cons_not_ws '"' _ (by decide)]
    simp +decide only []
    simp only [List.nil_append, if_true, if_false]
    rw [litStrGo_round '"' (Or.inl rfl) s.data rest]
    rfl
  · simp only [Bool.not_eq_true] at hcq
    simp only [hcq, Bool.false_eq_true, if_false]
    simp only [litP, List.cons_append, List.append_assoc]
    rw [skipWs_cons_not_ws quoteChar _ (by decide)]
    simp +decide only []
    simp only [List.nil_append, if_true, if_false]
    rw [litStrGo_round quoteChar (Or.inr rfl) s.data rest]
    rfl

lemma litP_one_eq (f : ℕ) (acc : List Py) (l : List Char) :
    litP (f + 1) 1 acc l =
      (match skipWs l with
       | [] => none
       | c :: rest =>
         if c == ']' then some (.list [], rest)
         else
           match litP f 0 [] (c :: rest) with
           | some (v, rest2) => litP f 2 [v] rest2
           | none => none) := rfl

lemma litP_two_eq (f : ℕ) (acc : List Py) (l : List Char) :
    litP (f + 1) 2 acc l =
      (match skipWs l with
       | [] => none
       | c :: rest =>
         if c == ']' then some (.list acc.reverse, rest)
         else if c == ',' then
           match skipWs rest with
           | [] => none
           | c2 :: rest2 =>
             if c2 == ']' then some (.list acc.reverse, rest2)
             else
               match litP f 0 [] (c2 :: rest2) with
               | some (v, rest3) => litP f 2 (v :: acc) rest3
               | none => none
         else none) := rfl

lemma intReprL_shape (k : ℤ) :
    ∃ c cs, intReprL k = c :: cs ∧ (isDig c = true ∨ c = '-') := by
  cases k with
  | ofNat n =>
    obtain ⟨d, ds, hds⟩ : ∃ d ds, natRepr n = d :: ds := by
      cases hnr : natRepr n with
      | nil => exact absurd hnr (natRepr_ne_nil n)
      | cons d ds => exact ⟨d, ds, rfl⟩
    refine ⟨d, ds, hds, Or.inl ?_⟩
    have hall := natRepr_all_dig n
    rw [hds, List.all_cons, Bool.and_eq_true] at hall
    exact hall.1
  | negSucc m => exact ⟨'-', natRepr (m + 1), rfl, Or.inr rfl⟩

lemma int_head_not_ws (c : Char) (h : isDig c = true ∨ c = '-') : isWsChar c = false := by
  rcases h with h | rfl
  · exact isWsChar_false_of_digit c h
  · decide

lemma int_head_ne_rbracket (c : Char) (h : isDig c = true ∨ c = '-') :
    (c == ']') = false := by
  rcases h with h | rfl
  · exact digit_beq_false c ']' h (by decide)
  · decide

lemma listTailRepr_head (ys : List Py) (rest : List Char) (hint : ∀ x ∈ ys, ∃ k, x = Py.int k)
    (cc : Char) (hcc : (listTailRepr ys ++ (']' :: rest)).head? = some cc) :
    isDig cc = false := by
  cases ys with
  | nil =>
    simp [listTailRepr] at hcc
    subst hcc
    decide
  | cons z zs =>
    simp [listTailRepr] at hcc
    subst hcc
    decide

/-- The mode-2 loop of `litP` consumes the printed tail of a list of
integers: either the immediate `]` or `, ` followed by the remaining items,
accumulating into `accP`. -/
lemma litP_loop : ∀ (xs : List Py) (fuel : ℕ) (accP : List Py) (rest : List Char),
    (∀ x ∈ xs, ∃ k, x = Py.int k) →
    2 * xs.length + 1 ≤ fuel →
    litP fuel 2 accP (listTailRepr xs ++ (']' :: rest)) =
      some (.list (accP.reverse ++ xs), rest) := by
  intro xs
  induction xs with
  | nil =>
    intro fuel accP rest hint hfuel
    obtain ⟨f, rfl⟩ : ∃ f, fuel = f + 1 := ⟨fuel - 1, by omega⟩
    rw [litP_two_eq]
    simp only [listTailRepr, List.nil_append]
    rw [skipWs_cons_not_ws ']' _ (by decide)]
    simp +decide only []
    simp
  | cons y ys ih =>
    intro fuel accP rest hint hfuel
    obtain ⟨f, rfl⟩ : ∃ f, fuel = f + 1 := ⟨fuel - 1, by omega⟩
    obtain ⟨ky, hky⟩ := hint y (List.mem_cons_self y ys)
    rw [litP_two_eq]
    simp only [listTailRepr, List.cons_append]
    rw [skipWs_cons_not_ws ',' _ (by decide)]
    simp only [show ((',' : Char) == ']') = false from by decide,
      show ((',' : Char) == ',') = true from by decide,
      Bool.false_eq_true, if_false, if_true]
    rw [skipWs_space]
    have hshape : pyReprListL (y :: ys) ++ (']' :: rest) =
        intReprL ky ++ (listTailRepr ys ++ (']' :: rest)) := by
      cases ys with
      | nil => simp [pyReprListL, pyReprL, listTailRepr, hky]
      | cons z zs => simp [pyReprListL, pyReprL, listTailRepr, hky, List.append_assoc]
    obtain ⟨c0, cs0, hc0, hc0k⟩ := intReprL_shape ky
    rw [hshape, hc0]
    simp only [List.cons_append]
    rw [skipWs_cons_not_ws c0 _ (int_head_not_ws c0 hc0k)]
    simp only [int_head_ne_rbracket c0 hc0k, Bool.false_eq_true, if_false]
    have hback : c0 :: (cs0 ++ (listTailRepr ys ++ (']' :: rest))) =
        intReprL ky ++ (listTailRepr ys ++ (']' :: rest)) := by
      rw [hc0]
      rfl
    rw [hback]
    obtain ⟨f2, rfl⟩ : ∃ f2, f = f2 + 1 :=
      ⟨f - 1, by simp only [List.length_cons] at hfuel; omega⟩
    rw [litP_int f2 [] ky _ (listTailRepr_head ys rest
      (fun x hx => hint x (List.mem_cons_of_mem y hx)))]
    show litP (f2 + 1) 2 (Py.int ky :: accP) (listTailRepr ys ++ (']' :: rest)) =
      some (.list (accP.reverse ++ y :: ys), rest)
    rw [ih (f2 + 1) (Py.int ky :: accP) rest
      (fun x hx => hint x (List.mem_cons_of_mem y hx))
      (by simp only [List.length_cons] at hfuel; omega)]
    simp [hky]

lemma litP_zero_eq (f : ℕ) (acc : List Py) (l : List Char) :
    litP (f + 1) 0 acc l =
      (match skipWs l with
       | [] => none
       | c :: rest =>
         if c == '[' then litP f 1 [] rest
         else if c == '-' then
           (let ds := rest.takeWhile isDig
            if ds.isEmpty then none
            else some (.int (-(digitsVal ds : ℤ)), rest.dropWhile isDig))
         else if isDig c then
           some (.int (digitsVal ((c :: rest).takeWhile isDig)),
                 (c :: rest).dropWhile isDig)
         else if c == '"' || c == quoteChar then
           (litStrGo c rest).map (fun p => (.str (String.mk p.1), p.2))
         else
           match c :: rest with
           | 'T' :: 'r' :: 'u' :: 'e' :: rest2 => some (.bool true, rest2)
           | 'F' :: 'a' :: 'l' :: 's' :: 'e' :: rest2 => some (.bool false, rest2)
           | 'N' :: 'o' :: 'n' :: 'e' :: rest2 => some (.none, rest2)
           | _ => none) := rfl

/-- `litP` in value mode parses the `repr` of a list of integers. -/
lemma litP_list (fuel : ℕ) (acc : List Py) (xs : List Py) (rest : List Char)
    (hint : ∀ x ∈ xs, ∃ k, x = Py.int k)
    (hfuel : 2 * xs.length + 2 ≤ fuel) :
    litP fuel 0 acc (pyReprL (.list xs) ++ rest) = some (.list xs, rest) := by
  obtain ⟨f, rfl⟩ : ∃ f, fuel = f + 1 := ⟨fuel - 1, by omega⟩
  have hpr : pyReprL (.list xs) ++ rest = '[' :: (pyReprListL xs ++ (']' :: rest)) := by
    simp [pyReprL, List.append_assoc]
  rw [hpr, litP_zero_eq, skipWs_cons_not_ws '[' _ (by decide)]
  simp only [show (('[' : Char) == '[') = true from rfl, if_true]
  obtain ⟨f2, rfl⟩ : ∃ f2, f = f2 + 1 := ⟨f - 1, by omega⟩
  rw [litP_one_eq]
  cases xs with
  | nil =>
    simp only [pyReprListL, List.nil_append]
    rw [skipWs_cons_not_ws ']' _ (by decide)]
    simp +decide only []
    simp
  | cons y ys =>
    obtain ⟨ky, hky⟩ := hint y (List.mem_cons_self y ys)
    have hshape : pyReprListL (y :: ys) ++ (']' :: rest) =
        intReprL ky ++ (listTailRepr ys ++ (']' :: rest)) := by
      cases ys with
      | nil => simp [pyReprListL, pyReprL, listTailRepr, hky]
      | cons z zs => simp [pyReprListL, pyReprL, listTailRepr, hky, List.append_assoc]
    obtain ⟨c0, cs0, hc0, hc0k⟩ := intReprL_shape ky
    rw [hshape, hc0]
    simp only [List.cons_append]
    rw [skipWs_cons_not_ws c0 _ (int_head_not_ws c0 hc0k)]
    simp only [int_head_ne_rbracket c0 hc0k, Bool.false_eq_true, if_false]
    have hback : c0 :: (cs0 ++ (listTailRepr ys ++ (']' :: rest))) =
        intReprL ky ++ (listTailRepr ys ++ (']' :: rest)) := by
      rw [hc0]
      rfl
    rw [hback]
    obtain ⟨f3, rfl⟩ : ∃ f3, f2 = f3 + 1 :=
      ⟨f2 - 1, by simp only [List.length_cons] at hfuel; omega⟩
    rw [litP_int f3 [] ky _ (listTailRepr_head ys rest
      (fun x hx => hint x (List.mem_cons_of_mem y hx)))]
    show litP (f3 + 1) 2 [Py.int ky] (listTailRepr ys ++ (']' :: rest)) =
      some (.list (y :: ys), rest)
    rw [litP_loop ys (f3 + 1) [Py.int ky] rest
      (fun x hx => hint x (List.mem_cons_of_mem y hx))
      (by simp only [List.length_cons] at hfuel; omega)]
    simp [hky]

lemma pyReprListL_len (xs : List Py) (hint : ∀ x ∈ xs, ∃ k, x = Py.int k) :
    xs.length ≤ (pyReprListL xs).length + 1 := by
  induction xs with
  | nil => simp [pyReprListL]
  | cons y ys ih =>
    obtain ⟨ky, hky⟩ := hint y (List.mem_cons_self y ys)
    obtain ⟨c0, cs0, hc0, _⟩ := intReprL_shape ky
    have hrec := ih (fun x hx => hint x (List.mem_cons_of_mem y hx))
    cases ys with
    | nil => simp [pyReprListL]
    | cons z zs =>
      have : (pyReprListL (y :: z :: zs)).length =
          (pyReprL y).length + 2 + (pyReprListL (z :: zs)).length := by
        simp [pyReprListL]
        omega
      simp only [List.length_cons] at hrec ⊢
      omega

lemma literalEval_of_parse (s : String) (v : Py)
    (h : litP (2 * s.data.length + 4) 0 [] s.data = some (v, [])) :
    literalEval s = some v := by
  unfold literalEval
  rw [h]
  rfl

/-- C9: round trip of the Literal Value Codec.  For every value of the
shapes the claim names — integers, (ASCII) strings, and lists of integers —
decoding the `repr`-encoded form with the literal evaluation of the validator
yields the value back: `literalEval (pyRepr v) = some v`. -/
theorem codec_round_trip (v : Py) (h : litShape v = true) :
    literalEval (pyRepr v) = some v := by
  apply literalEval_of_parse
  cases v with
  | int k =>
    have h2 := litP_int (2 * (pyReprL (Py.int k)).length + 3) [] k []
      (fun c hc => by simp at hc)
    rw [List.append_nil] at h2
    exact h2
  | str s =>
    have h2 := litP_str (2 * (pyReprL (Py.str s)).length + 3) [] s []
    rw [List.append_nil] at h2
    exact h2
  | list xs =>
    have hint : ∀ x ∈ xs, ∃ k, x = Py.int k := by
      intro x hx
      have h2 : xs.all (fun x => match x with | .int _ => true | _ => false) = true := h
      have h3 := List.all_eq_true.mp h2 x hx
      cases x <;> simp at h3 <;> exact ⟨_, rfl⟩
    have hlen := pyReprListL_len xs hint
    have hbound : 2 * xs.length + 2 ≤ 2 * (pyReprL (Py.list xs)).length + 4 := by
      have : (pyReprL (Py.list xs)).length = (pyReprListL xs).length + 2 := by
        simp [pyReprL]
      omega
    have h2 := litP_list (2 * (pyReprL (Py.list xs)).length + 4) [] xs [] hint hbound
    rw [List.append_nil] at h2
    exact h2
  | none => simp [litShape] at h
  | bool b => simp [litShape] at h
  | float s => simp [litShape] at h
  | dict kvs => simp [litShape] at h

/-- Witness for `codec_round_trip` at one input of each claimed shape: an
integer, a string exercising both quotes and escapes, and a list of
integers. -/
theorem codec_round_trip_witness :
    literalEval (pyRepr (Py.int (-42))) = some (Py.int (-42)) ∧
    literalEval (pyRepr (Py.str "he said \x27hi\x27 \"ok\"\n\tdone")) =
      some (Py.str "he said \x27hi\x27 \"ok\"\n\tdone") ∧
    literalEval (pyRepr (Py.list [Py.int 1, Py.int (-2), Py.int 3])) =
      some (Py.list [Py.int 1, Py.int (-2), Py.int 3]) :=
  ⟨codec_round_trip (Py.int (-42)) (by decide),
   codec_round_trip (Py.str "he said \x27hi\x27 \"ok\"\n\tdone") (by decide),
   codec_round_trip (Py.list [Py.int 1, Py.int (-2), Py.int 3]) (by decide)⟩
